import Mathlib

/-!
Shallow embedding of the movie recommendation program (`finalproject.py`).

Strings are modeled as `List Char`.  The three core components are embedded
from the source:

* award lookup (`check_oscar_status`, lines 152-167),
* preference filtering and ranking (`filter_movies`, lines 114-149),
* the recommendation display window inside `show_recommendations`
  (lines 170-235): window initialization (lines 174-183) and the
  seen/replace round (lines 207-230).

Out-of-scope I/O (CSV loading, prompts, printing) is not embedded; printed
warning messages of the seen/replace round are modeled as structured events.
-/

/-- Python `str.lower()` (ASCII data). -/
def lowerStr (s : List Char) : List Char := s.map Char.toLower

/-- Python `str.strip()`: drop leading and trailing whitespace. -/
def stripStr (s : List Char) : List Char :=
  ((s.dropWhile Char.isWhitespace).reverse.dropWhile Char.isWhitespace).reverse

/-- Contiguous substring containment: does `needle` occur inside the second
list?  This models Python's `in` on strings and pandas `str.contains` as the
program uses it (its query strings are movie titles and actor names, free of
regex metacharacters). -/
def isSubstring : List Char → List Char → Bool
  | needle, [] => needle.isEmpty
  | needle, c :: rest => needle.isPrefixOf (c :: rest) || isSubstring needle rest

/-! ## Award lookup (`check_oscar_status`, lines 152-167) -/

/-- Outcome of one award record, as rendered by line 163. -/
inductive AwardStatus where
  | winner
  | nominated
deriving DecidableEq

/-- One row of the Oscar dataset.  `winner` is kept as the raw textual form of
the loaded cell, since line 163 goes through `str(winner)`. -/
structure AwardRecord where
  film : List Char
  category : List Char
  winner : List Char
deriving DecidableEq

/-- Line 163: `"Winner" if str(winner).strip().lower() == 'true' else "Nominated"`. -/
def winnerStatus (r : AwardRecord) : AwardStatus :=
  if lowerStr (stripStr r.winner) = "true".toList then .winner else .nominated

/-- Line 156: `oscar_df['film'].str.contains(movie_title, case=False, na=False)` —
case-insensitive substring match of the query against the film title.
(Rows with a null film title are dropped by `na=False`; the embedding carries
only non-null titles.) -/
def filmMatches (movie_title : List Char) (r : AwardRecord) : Bool :=
  isSubstring (lowerStr movie_title) (lowerStr r.film)

/-- `check_oscar_status` (lines 152-167).  The Oscar dataset is
`Option (List AwardRecord)` because `load_oscar_data` returns `None` when the
file is missing.  Each matched row contributes one entry, modeled as a
`(status, category)` pair (line 164 formats it as `"{status} for {category}"`).
The function returns `None` (not an empty list) when the dataset is absent or
when no row matches: both fall through to `return None` at line 167. -/
def check_oscar_status (movie_title : List Char) (oscar_df : Option (List AwardRecord)) :
    Option (List (AwardStatus × List Char)) :=
  match oscar_df with
  | some df =>
      let matched_rows := df.filter (filmMatches movie_title)
      if matched_rows.isEmpty then none
      else some (matched_rows.map (fun r => (winnerStatus r, r.category)))
  | none => none

/-- The award entries a caller actually iterates over: `None` carries no
entries (the caller at lines 190-192 treats `None` exactly like no entries). -/
def lookupEntries (movie_title : List Char) (oscar_df : Option (List AwardRecord)) :
    List (AwardStatus × List Char) :=
  (check_oscar_status movie_title oscar_df).getD []

/-! ## Preference filtering and ranking (`filter_movies`, lines 114-149) -/

/-- One row of the movie catalog, after the load-time cleaning of
`load_movie_data` (genres already split, required columns non-null).
`rating` is the IMDb rating column (one decimal digit, embedded in `ℚ`). -/
structure Movie where
  title : List Char
  genres : List (List Char)
  year : ℤ
  rating : ℚ
  runtime : ℤ
  votes : ℤ
  actors : List Char
deriving DecidableEq

/-- The preference dict built by `get_user_preferences` (lines 105-112).
`fav_actor` is always a string there; the empty string means "skipped"
(line 132 tests its truthiness). -/
structure Preferences where
  genre : Option (List Char)
  min_rating : Option ℚ
  min_year : Option ℤ
  max_year : Option ℤ
  max_runtime : Option ℤ
  fav_actor : List Char
deriving DecidableEq

/-- The filtering mask (lines 116-128): a row is kept iff every stated
preference holds; absent preferences contribute `True`.  Line 119 tests the
truthiness of `prefs['genre']`, so an empty genre string would also impose no
condition. -/
def keepMovie (prefs : Preferences) (m : Movie) : Bool :=
  (match prefs.genre with
   | none => true
   | some g => if g = [] then true else m.genres.contains g) &&
  (match prefs.min_rating with
   | none => true
   | some r => decide (r ≤ m.rating)) &&
  (match prefs.min_year with
   | none => true
   | some y => decide (y ≤ m.year)) &&
  (match prefs.max_year with
   | none => true
   | some y => decide (m.year ≤ y)) &&
  (match prefs.max_runtime with
   | none => true
   | some t => decide (m.runtime ≤ t))

/-- Line 134: `filtered_df['Actors'].str.contains(prefs['fav_actor'], case=False)` —
case-insensitive substring search of the favorite actor in the actors blob. -/
def actorMatches (fav : List Char) (m : Movie) : Bool :=
  isSubstring (lowerStr fav) (lowerStr m.actors)

/-- Lexicographic order on rational key lists: the order in which
`numpy.lexsort` (used by pandas for multi-column `sort_values`) arranges
rows whose sort keys are the given component lists. -/
def lexLe : List ℚ → List ℚ → Bool
  | [], _ => true
  | _ :: _, [] => false
  | a :: as, b :: bs => if a < b then true else if b < a then false else lexLe as bs

/-- The sort key of a catalog row tagged with its original position
(lines 140-147).  With a favorite actor (lines 140-144) the columns are
(actor match, Rating, Votes), all descending; otherwise (line 147)
(Rating, Votes) descending.  Descending columns are negated; the trailing
original-position component models the tie stability of the pandas
multi-column sort (remaining ties keep original row order). -/
def sortKey (prefs : Preferences) (p : ℕ × Movie) : List ℚ :=
  if prefs.fav_actor = [] then
    [-p.2.rating, -(p.2.votes : ℚ), (p.1 : ℚ)]
  else
    [if actorMatches prefs.fav_actor p.2 then (-1 : ℚ) else 0,
     -p.2.rating, -(p.2.votes : ℚ), (p.1 : ℚ)]

/-- Row comparison realizing the `sort_values` calls of lines 140-147. -/
def sortLe (prefs : Preferences) (a b : ℕ × Movie) : Prop :=
  lexLe (sortKey prefs a) (sortKey prefs b) = true

instance (prefs : Preferences) : DecidableRel (sortLe prefs) :=
  fun _ _ => inferInstanceAs (Decidable (_ = true))

/-- The rows surviving the mask (line 130), tagged with their original
catalog position (pandas keeps the original index through `df[mask]`). -/
def filterIdx (df : List Movie) (prefs : Preferences) : List (ℕ × Movie) :=
  df.enum.filter (fun p => keepMovie prefs p.2)

/-- The sorted, position-tagged result of `filter_movies`.  The comparator is
total, transitive and antisymmetric on the tagged rows (distinct rows carry
distinct positions), so every correct sort produces this unique order;
insertion sort is used for its structural recursion. -/
def rankIdx (df : List Movie) (prefs : Preferences) : List (ℕ × Movie) :=
  (filterIdx df prefs).insertionSort (sortLe prefs)

/-- `filter_movies` (lines 114-149): the ranked recommendation list. -/
def filter_movies (df : List Movie) (prefs : Preferences) : List Movie :=
  (rankIdx df prefs).map Prod.snd

/-- Line 136: the reportable "no actor matches" signal
(`if not actor_mask.any()`). -/
def noActorMatch (df : List Movie) (prefs : Preferences) : Bool :=
  (filterIdx df prefs).all (fun p => !actorMatches prefs.fav_actor p.2)

/-! ## Recommendation window (`show_recommendations`, lines 170-235) -/

/-- The mutable session state of the display window: `displayed` holds the
positions into the ranked list currently shown (line 182), `nextIndex` the
cursor of the next unshown candidate (line 183). -/
structure WindowState where
  displayed : List ℕ
  nextIndex : ℕ
deriving DecidableEq

/-- Window initialization (lines 174-183).  An empty ranked list returns
immediately with the "no movies matched" message, modeled as `none` (the
session is over before any view is shown).  Otherwise the first
`min 5 n` ranked positions are displayed and the cursor starts right after
them. -/
def initWindow (n : ℕ) : Option WindowState :=
  if n = 0 then none
  else some { displayed := List.range (min 5 n), nextIndex := min 5 n }

/-- The records currently shown (lines 187-188: `top_matches.iloc[idx]` for
each displayed position). -/
def currentView (ranked : List Movie) (st : WindowState) : List Movie :=
  st.displayed.filterMap (fun i => ranked.get? i)

/-- The printed warnings of one seen/replace round, as structured events:
line 218 (position out of range), line 227 (no replacement left for a slot),
line 230 (no valid selections). -/
inductive SeenEvent where
  | invalidPosition (p : ℕ)
  | noReplacement (p : ℕ)
  | noValidSelections
deriving DecidableEq

/-- Line 217: a 1-based display position `p` is usable iff `0 ≤ p-1 < len`. -/
def validPosition (len p : ℕ) : Bool := decide (1 ≤ p) && decide (p ≤ len)

/-- Insertion into the set `seen_indices` (line 220), modeled as a sorted
duplicate-free list.  The inserted values are display slots `0..4`; CPython
stores ints `0..7` of a small set at table slot `hash(i) = i` and iterates
table slots in order, so the set is enumerated in increasing value order. -/
def setInsert (i : ℕ) : List ℕ → List ℕ
  | [] => [i]
  | a :: t => if i < a then i :: a :: t else if i = a then a :: t else a :: setInsert i t

/-- The parsing loop (lines 211-220): positions outside `[1, len]` are
skipped, the rest are collected (0-based) into the `seen_indices` set. -/
def seenIndices (len : ℕ) (positions : List ℕ) : List ℕ :=
  positions.foldl (fun s p => if validPosition len p then setInsert (p - 1) s else s) []

/-- One step of the replacement loop (lines 222-227): when candidates remain
(`nextIndex < n`), the slot is overwritten with the cursor and the cursor
advances; otherwise the slot is kept and a no-replacement event is reported
for the 1-based position. -/
def replaceStep (n : ℕ) (acc : WindowState × List SeenEvent) (i : ℕ) :
    WindowState × List SeenEvent :=
  if acc.1.nextIndex < n then
    ({ displayed := acc.1.displayed.set i acc.1.nextIndex,
       nextIndex := acc.1.nextIndex + 1 }, acc.2)
  else
    (acc.1, acc.2 ++ [SeenEvent.noReplacement (i + 1)])

/-- One full seen/replace round (lines 207-230) against a ranked list of
length `n`: parse the entered positions (collecting invalid-position events),
run the replacement loop over the seen set, and report when nothing valid was
selected (line 229-230). -/
def markSeen (n : ℕ) (st : WindowState) (positions : List ℕ) :
    WindowState × List SeenEvent :=
  let len := st.displayed.length
  let invalidEvents :=
    (positions.filter (fun p => !validPosition len p)).map SeenEvent.invalidPosition
  let seen := seenIndices len positions
  let r := seen.foldl (replaceStep n) (st, invalidEvents)
  if seen.isEmpty then (r.1, r.2 ++ [SeenEvent.noValidSelections]) else r

/-! ## Derived definitions used by the verification -/

/-- The window-state invariant of the spec: displayed positions are distinct,
all below the candidate cursor (hence valid positions into the ranked list,
and never re-assignable, since assignments always use the current cursor),
and the cursor stays between the window length and the ranked-list length. -/
def WindowInv (n : ℕ) (st : WindowState) : Prop :=
  st.displayed.Nodup ∧
  (∀ v ∈ st.displayed, v < st.nextIndex) ∧
  st.displayed.length ≤ st.nextIndex ∧
  st.nextIndex ≤ n

instance (n : ℕ) (st : WindowState) : Decidable (WindowInv n st) :=
  inferInstanceAs (Decidable (_ ∧ _ ∧ _ ∧ _))

/-- Sample catalog row used by concrete witnesses. -/
def sampleA : Movie :=
  ⟨"Arrival".toList, ["Drama".toList], 2016, 8, 116, 50, "Amy Adams".toList⟩

/-- Sample catalog row used by concrete witnesses. -/
def sampleB : Movie :=
  ⟨"Blade".toList, ["Action".toList], 2011, 9, 100, 60, "Wesley Snipes".toList⟩

/-- Sample catalog row used by concrete witnesses. -/
def sampleC : Movie :=
  ⟨"Casino".toList, ["Drama".toList], 2012, 8, 100, 50, "Quentin".toList⟩

/-- Empty preferences: every filter skipped. -/
def samplePrefs : Preferences := ⟨none, none, none, none, none, []⟩

/-- Preferences with only a favorite actor set. -/
def prefsQ : Preferences := ⟨none, none, none, none, none, "q".toList⟩

/-- Sample award row used by concrete witnesses. -/
def sampleAward : AwardRecord :=
  ⟨"The Dark Knight".toList, "Sound Editing".toList, "True".toList⟩

/-! ## Lemmas about the lexicographic comparison -/

theorem lexLe_trans : ∀ (as bs cs : List ℚ),
    lexLe as bs = true → lexLe bs cs = true → lexLe as cs = true
  | [], _, _, _, _ => rfl
  | _ :: _, [], _, h, _ => by simp [lexLe] at h
  | _ :: _, _ :: _, [], _, h => by simp [lexLe] at h
  | a :: as, b :: bs, c :: cs, h1, h2 => by
    simp only [lexLe] at h1 h2 ⊢
    by_cases hab : a < b
    · by_cases hbc : b < c
      · simp [hab.trans hbc]
      · by_cases hcb : c < b
        · simp [hbc, hcb] at h2
        · have hbc' : b = c := le_antisymm (not_lt.mp hcb) (not_lt.mp hbc)
          have hac : a < c := hbc' ▸ hab
          simp [hac]
    · by_cases hba : b < a
      · simp [hab, hba] at h1
      · have hab' : a = b := le_antisymm (not_lt.mp hba) (not_lt.mp hab)
        subst hab'
        simp only [lt_self_iff_false, if_false] at h1
        by_cases hac : a < c
        · simp [hac]
        · by_cases hca : c < a
          · simp [hac, hca] at h2
          · rw [if_neg hac, if_neg hca] at h2
            simp [hac, hca, lexLe_trans as bs cs h1 h2]

theorem lexLe_total : ∀ (as bs : List ℚ), lexLe as bs = true ∨ lexLe bs as = true
  | [], _ => Or.inl rfl
  | _ :: _, [] => Or.inr rfl
  | a :: as, b :: bs => by
    by_cases hab : a < b
    · left; simp [lexLe, hab]
    · by_cases hba : b < a
      · right; simp [lexLe, hba]
      · have hab' : a = b := le_antisymm (not_lt.mp hba) (not_lt.mp hab)
        subst hab'
        rcases lexLe_total as bs with h | h
        · left; simp [lexLe, lt_self_iff_false, h]
        · right; simp [lexLe, lt_self_iff_false, h]

theorem lexLe_head_le {a b : ℚ} {as bs : List ℚ}
    (h : lexLe (a :: as) (b :: bs) = true) : a ≤ b := by
  simp only [lexLe] at h
  by_cases hab : a < b
  · exact hab.le
  · by_cases hba : b < a
    · simp [hab, hba] at h
    · exact not_lt.mp hba

theorem lexLe_cons_same (x : ℚ) (as bs : List ℚ) :
    lexLe (x :: as) (x :: bs) = lexLe as bs := by
  simp [lexLe, lt_self_iff_false]

/-! ## Lemmas about the ranking -/

instance (prefs : Preferences) : IsTrans (ℕ × Movie) (sortLe prefs) :=
  ⟨fun _ _ _ h1 h2 => lexLe_trans _ _ _ h1 h2⟩

instance (prefs : Preferences) : IsTotal (ℕ × Movie) (sortLe prefs) :=
  ⟨fun _ _ => lexLe_total _ _⟩

theorem rankIdx_sorted (df : List Movie) (prefs : Preferences) :
    (rankIdx df prefs).Pairwise (sortLe prefs) :=
  List.sorted_insertionSort _ _

theorem rankIdx_perm (df : List Movie) (prefs : Preferences) :
    (rankIdx df prefs).Perm (filterIdx df prefs) :=
  List.perm_insertionSort _ _

theorem mem_rankIdx {df : List Movie} {prefs : Preferences} {p : ℕ × Movie}
    (h : p ∈ rankIdx df prefs) : df[p.1]? = some p.2 := by
  have h1 : p ∈ filterIdx df prefs := (rankIdx_perm df prefs).mem_iff.mp h
  have h2 : p ∈ df.enum := (List.mem_filter.mp h1).1
  exact List.mem_enum_iff_getElem?.mp h2

theorem rankIdx_fst_nodup (df : List Movie) (prefs : Preferences) :
    (rankIdx df prefs).Pairwise (fun a b => a.1 ≠ b.1) := by
  have h0 : (df.enum.map Prod.fst).Nodup := by
    rw [List.enum_eq_enumFrom, List.enumFrom_map_fst]
    exact List.nodup_range' 0 df.length
  have h1 : ((filterIdx df prefs).map Prod.fst).Nodup :=
    ((List.filter_sublist _).map Prod.fst).nodup h0
  have h2 : ((rankIdx df prefs).map Prod.fst).Nodup :=
    (((rankIdx_perm df prefs).map Prod.fst).nodup_iff).mpr h1
  exact List.pairwise_map.mp h2

theorem filter_movies_perm (df : List Movie) (prefs : Preferences) :
    (filter_movies df prefs).Perm (df.filter (keepMovie prefs)) := by
  unfold filter_movies
  refine ((rankIdx_perm df prefs).map Prod.snd).trans (List.Perm.of_eq ?_)
  unfold filterIdx
  conv_rhs => rw [← List.enumFrom_map_snd 0 df]
  rw [List.filter_map]
  rfl

/-! ## Lemmas about the window state machine -/

theorem mem_setInsert {x i : ℕ} : ∀ {l : List ℕ}, x ∈ setInsert i l ↔ x = i ∨ x ∈ l
  | [] => by simp [setInsert]
  | a :: t => by
    simp only [setInsert]
    by_cases h1 : i < a
    · rw [if_pos h1]
      simp only [List.mem_cons]
    · by_cases h2 : i = a
      · rw [if_neg h1, if_pos h2]
        subst h2
        simp only [List.mem_cons]
        tauto
      · rw [if_neg h1, if_neg h2]
        simp only [List.mem_cons]
        rw [mem_setInsert (l := t)]
        tauto

theorem pairwise_setInsert {i : ℕ} : ∀ {l : List ℕ},
    l.Pairwise (fun a b => a < b) → (setInsert i l).Pairwise (fun a b => a < b)
  | [], _ => by simp [setInsert]
  | a :: t, h => by
    simp only [setInsert]
    rcases List.pairwise_cons.mp h with ⟨ha, ht⟩
    by_cases h1 : i < a
    · rw [if_pos h1]
      exact List.pairwise_cons.mpr ⟨by
        intro x hx
        rcases List.mem_cons.mp hx with rfl | hx
        · exact h1
        · exact h1.trans (ha x hx), h⟩
    · by_cases h2 : i = a
      · rw [if_neg h1, if_pos h2]
        exact h
      · rw [if_neg h1, if_neg h2]
        refine List.pairwise_cons.mpr ⟨?_, pairwise_setInsert ht⟩
        intro x hx
        rcases mem_setInsert.mp hx with rfl | hx
        · omega
        · exact ha x hx

theorem pairwise_seenIndices (len : ℕ) (ps : List ℕ) :
    (seenIndices len ps).Pairwise (fun a b => a < b) := by
  suffices h : ∀ (qs : List ℕ) (acc : List ℕ), acc.Pairwise (fun a b => a < b) →
      (qs.foldl (fun s p => if validPosition len p then setInsert (p - 1) s else s) acc).Pairwise
        (fun a b => a < b) from
    h ps [] List.Pairwise.nil
  intro qs
  induction qs with
  | nil => exact fun acc h => h
  | cons q qs ih =>
    intro acc hacc
    simp only [List.foldl_cons]
    by_cases hq : validPosition len q
    · rw [if_pos hq]
      exact ih _ (pairwise_setInsert hacc)
    · rw [if_neg hq]
      exact ih _ hacc

theorem nodup_set : ∀ (l : List ℕ) (i v : ℕ), l.Nodup → v ∉ l → (l.set i v).Nodup
  | [], _, _, _, _ => List.nodup_nil
  | a :: t, 0, v, h, hv => by
    simp only [List.set]
    exact List.nodup_cons.mpr
      ⟨fun hm => hv (List.mem_cons_of_mem _ hm), (List.nodup_cons.mp h).2⟩
  | a :: t, i + 1, v, h, hv => by
    simp only [List.set]
    have h' := List.nodup_cons.mp h
    refine List.nodup_cons.mpr
      ⟨?_, nodup_set t i v h'.2 (fun hm => hv (List.mem_cons_of_mem _ hm))⟩
    intro hm
    rcases List.mem_or_eq_of_mem_set hm with h1 | h1
    · exact h'.1 h1
    · exact hv (h1 ▸ List.mem_cons_self a t)

theorem foldl_replaceStep_inv (n : ℕ) : ∀ (idxs : List ℕ) (st : WindowState)
    (evs : List SeenEvent), WindowInv n st →
    WindowInv n (idxs.foldl (replaceStep n) (st, evs)).1 ∧
    (∀ v ∈ (idxs.foldl (replaceStep n) (st, evs)).1.displayed,
      v ∈ st.displayed ∨ st.nextIndex ≤ v)
  | [], st, evs, h => ⟨h, fun v hv => Or.inl hv⟩
  | i :: idxs, st, evs, h => by
    simp only [List.foldl_cons, replaceStep]
    by_cases hlt : st.nextIndex < n
    · rw [if_pos hlt]
      rcases h with ⟨hnd, hlt', hlen, hn⟩
      have hnotmem : st.nextIndex ∉ st.displayed :=
        fun hm => absurd (hlt' _ hm) (lt_irrefl _)
      have hinv' : WindowInv n ⟨st.displayed.set i st.nextIndex, st.nextIndex + 1⟩ := by
        refine ⟨nodup_set _ _ _ hnd hnotmem, ?_, ?_, hlt⟩
        · intro v hv
          rcases List.mem_or_eq_of_mem_set hv with h1 | h1
          · exact (hlt' _ h1).trans (Nat.lt_succ_self _)
          · simp [h1]
        · simpa using hlen.trans (Nat.le_succ _)
      rcases foldl_replaceStep_inv n idxs _ evs hinv' with ⟨h1, h2⟩
      refine ⟨h1, ?_⟩
      intro v hv
      rcases h2 v hv with h3 | h3
      · rcases List.mem_or_eq_of_mem_set h3 with h4 | h4
        · exact Or.inl h4
        · exact Or.inr (le_of_eq h4.symm)
      · exact Or.inr ((Nat.le_succ _).trans h3)
    · rw [if_neg hlt]
      exact foldl_replaceStep_inv n idxs st _ h

theorem foldl_replaceStep_fst_ev (n : ℕ) : ∀ (idxs : List ℕ) (st : WindowState)
    (evs evs' : List SeenEvent),
    (idxs.foldl (replaceStep n) (st, evs)).1 = (idxs.foldl (replaceStep n) (st, evs')).1
  | [], _, _, _ => rfl
  | i :: idxs, st, evs, evs' => by
    simp only [List.foldl_cons, replaceStep]
    by_cases hlt : st.nextIndex < n
    · rw [if_pos hlt, if_pos hlt]
      exact foldl_replaceStep_fst_ev n idxs _ _ _
    · rw [if_neg hlt, if_neg hlt]
      exact foldl_replaceStep_fst_ev n idxs _ _ _

theorem foldl_replaceStep_of_le {n : ℕ} {st : WindowState} (h : n ≤ st.nextIndex) :
    ∀ (idxs : List ℕ) (evs : List SeenEvent),
    (idxs.foldl (replaceStep n) (st, evs)).1 = st
  | [], _ => rfl
  | i :: idxs, evs => by
    simp only [List.foldl_cons, replaceStep, Nat.not_lt.mpr h, if_false]
    exact foldl_replaceStep_of_le h idxs _

theorem markSeen_fst (n : ℕ) (st : WindowState) (ps : List ℕ) :
    (markSeen n st ps).1 =
      ((seenIndices st.displayed.length ps).foldl (replaceStep n)
        (st, (ps.filter (fun p => !validPosition st.displayed.length p)).map
          SeenEvent.invalidPosition)).1 := by
  simp only [markSeen]
  split <;> rfl

theorem seenIndices_filter (len : ℕ) (ps : List ℕ) :
    seenIndices len (ps.filter (validPosition len)) = seenIndices len ps := by
  suffices h : ∀ (qs : List ℕ) (acc : List ℕ),
      (qs.filter (validPosition len)).foldl
        (fun s p => if validPosition len p then setInsert (p - 1) s else s) acc =
      qs.foldl (fun s p => if validPosition len p then setInsert (p - 1) s else s) acc from
    h ps []
  intro qs
  induction qs with
  | nil => exact fun _ => rfl
  | cons q qs ih =>
    intro acc
    by_cases hq : validPosition len q
    · rw [List.filter_cons_of_pos hq]
      simp only [List.foldl_cons, if_pos hq]
      exact ih _
    · rw [List.filter_cons_of_neg (by simp [hq])]
      simp only [List.foldl_cons, if_neg hq]
      exact ih _

/-! ## Further helper lemmas -/

theorem isSubstring_nil : ∀ (h : List Char), isSubstring [] h = true
  | [] => rfl
  | _ :: _ => rfl

theorem lookupEntries_some (t : List Char) (recs : List AwardRecord) :
    lookupEntries t (some recs) =
      (recs.filter (filmMatches t)).map (fun r => (winnerStatus r, r.category)) := by
  simp only [lookupEntries, check_oscar_status]
  split
  · next h => rw [List.isEmpty_iff.mp h]; rfl
  · rfl

theorem sortLe_actor {prefs : Preferences} (hfav : prefs.fav_actor ≠ [])
    {a b : ℕ × Movie} (h : sortLe prefs a b)
    (hb : actorMatches prefs.fav_actor b.2 = true) :
    actorMatches prefs.fav_actor a.2 = true := by
  by_contra ha
  rw [Bool.not_eq_true] at ha
  unfold sortLe sortKey at h
  rw [if_neg hfav, if_neg hfav, hb, ha] at h
  simp only [if_true, if_false] at h
  have h0 := lexLe_head_le h
  norm_num at h0

theorem sortLe_stable {prefs : Preferences} {a b : ℕ × Movie} (h : sortLe prefs a b)
    (hne : a.1 ≠ b.1) (hr : a.2.rating = b.2.rating) (hv : a.2.votes = b.2.votes)
    (hm : prefs.fav_actor ≠ [] →
      actorMatches prefs.fav_actor a.2 = actorMatches prefs.fav_actor b.2) :
    a.1 < b.1 := by
  unfold sortLe sortKey at h
  have hcast : ((a.1 : ℚ)) ≤ (b.1 : ℚ) → a.1 < b.1 := fun hle =>
    lt_of_le_of_ne (by exact_mod_cast hle) hne
  by_cases hfav : prefs.fav_actor = []
  · rw [if_pos hfav, if_pos hfav, hr, hv] at h
    rw [lexLe_cons_same, lexLe_cons_same] at h
    exact hcast (lexLe_head_le h)
  · rw [if_neg hfav, if_neg hfav, hm hfav, hr, hv] at h
    rw [lexLe_cons_same, lexLe_cons_same, lexLe_cons_same] at h
    exact hcast (lexLe_head_le h)

/-! ## The claims -/

/-- Claim C1: the window-state invariant holds after initialization and is
preserved by every `markSeen` round: displayed positions stay distinct and
below the cursor (hence they are valid positions into the ranked list), the
cursor stays between the window length and the ranked-list length, and every
position newly entering the window comes from at or beyond the old cursor, so
no ranked position is ever displayed twice in a session. -/
theorem C1_window_invariant (n : ℕ) (st : WindowState) (ps : List ℕ) :
    (∀ st0, initWindow n = some st0 → WindowInv n st0) ∧
    (WindowInv n st →
      WindowInv n (markSeen n st ps).1 ∧
      (∀ v ∈ (markSeen n st ps).1.displayed, v < n) ∧
      (∀ v ∈ (markSeen n st ps).1.displayed, v ∈ st.displayed ∨ st.nextIndex ≤ v)) := by
  constructor
  · intro st0 h
    unfold initWindow at h
    split at h
    · exact absurd h (by simp)
    · injection h with h'
      subst h'
      refine ⟨List.nodup_range _, ?_, ?_, min_le_right _ _⟩
      · exact fun v hv => List.mem_range.mp hv
      · simp [List.length_range]
  · intro hinv
    rw [markSeen_fst]
    rcases foldl_replaceStep_inv n (seenIndices st.displayed.length ps) st _ hinv with
      ⟨h1, h2⟩
    exact ⟨h1, fun v hv => lt_of_lt_of_le (h1.2.1 v hv) h1.2.2.2, h2⟩

/-- Concrete instantiation of C1_window_invariant. -/
theorem C1_window_invariant_witness :
    WindowInv 6 (markSeen 6 ⟨[0, 1, 2, 3, 4], 5⟩ [2, 4]).1 ∧
    (∀ v ∈ (markSeen 6 ⟨[0, 1, 2, 3, 4], 5⟩ [2, 4]).1.displayed, v < 6) ∧
    (∀ v ∈ (markSeen 6 ⟨[0, 1, 2, 3, 4], 5⟩ [2, 4]).1.displayed,
      v ∈ ([0, 1, 2, 3, 4] : List ℕ) ∨ 5 ≤ v) :=
  (C1_window_invariant 6 ⟨[0, 1, 2, 3, 4], 5⟩ [2, 4]).2 (by decide)

/-- Claim C2: a round processes the seen set in increasing slot order (the
collected set is enumerated strictly ascending), and on the spec's end-to-end
scenario — six ranked records, slots `0..4` shown, cursor at `5`, positions
`{2,4}` marked seen — slot 2 receives ranked position 5 and slot 4 keeps its
item with a no-replacement report. -/
theorem C2_ascending_replacement :
    (∀ (len : ℕ) (ps : List ℕ), (seenIndices len ps).Pairwise (fun a b => a < b)) ∧
    markSeen 6 ⟨[0, 1, 2, 3, 4], 5⟩ [2, 4] =
      (⟨[0, 5, 2, 3, 4], 6⟩, [SeenEvent.noReplacement 4]) :=
  ⟨pairwise_seenIndices, by decide⟩

/-- Claim C3: error handling of a seen/replace round is non-fatal and local:
invalid positions never change the resulting state (the state depends only on
the valid positions), an exhausted cursor leaves the whole state unchanged, an
empty selection just reports no-valid-selections, a single invalid position
reports an invalid-position event with the state unchanged, and a valid
position with an exhausted cursor reports no-replacement for that position
with the state unchanged.  `markSeen` is a total function: no input aborts the
session. -/
theorem C3_error_handling (n : ℕ) (st : WindowState) (p : ℕ) :
    (∀ ps, (markSeen n st ps).1 =
      (markSeen n st (ps.filter (validPosition st.displayed.length))).1) ∧
    (∀ ps, n ≤ st.nextIndex → (markSeen n st ps).1 = st) ∧
    markSeen n st [] = (st, [SeenEvent.noValidSelections]) ∧
    (validPosition st.displayed.length p = false →
      markSeen n st [p] = (st, [SeenEvent.invalidPosition p,
        SeenEvent.noValidSelections])) ∧
    (validPosition st.displayed.length p = true → n ≤ st.nextIndex →
      markSeen n st [p] = (st, [SeenEvent.noReplacement p])) := by
  refine ⟨?_, ?_, ?_, ?_, ?_⟩
  · intro ps
    rw [markSeen_fst, markSeen_fst, seenIndices_filter]
    exact foldl_replaceStep_fst_ev n _ st _ _
  · intro ps h
    rw [markSeen_fst]
    exact foldl_replaceStep_of_le h _ _
  · rfl
  · intro h
    simp [markSeen, seenIndices, h]
  · intro h hn
    have hp : 1 ≤ p ∧ p ≤ st.displayed.length := by simpa [validPosition] using h
    simp [markSeen, seenIndices, h, setInsert, replaceStep, Nat.not_lt.mpr hn,
      Nat.sub_add_cancel hp.1]

/-- Concrete instantiation of C3_error_handling. -/
theorem C3_error_handling_witness :
    (markSeen 3 ⟨[0, 1, 2], 3⟩ [2]).1 = ⟨[0, 1, 2], 3⟩ ∧
    markSeen 3 ⟨[0, 1, 2], 3⟩ [7] =
      (⟨[0, 1, 2], 3⟩, [SeenEvent.invalidPosition 7, SeenEvent.noValidSelections]) ∧
    markSeen 3 ⟨[0, 1, 2], 3⟩ [2] = (⟨[0, 1, 2], 3⟩, [SeenEvent.noReplacement 2]) :=
  ⟨(C3_error_handling 3 ⟨[0, 1, 2], 3⟩ 2).2.1 [2] (by decide),
   (C3_error_handling 3 ⟨[0, 1, 2], 3⟩ 7).2.2.2.1 (by decide),
   (C3_error_handling 3 ⟨[0, 1, 2], 3⟩ 2).2.2.2.2 (by decide) (by decide)⟩

/-- Claim C4: initializing on an empty ranked list goes straight to the
exhausted outcome (modeled by `none`, with no view ever produced); otherwise
the displayed window is exactly the position range `[0, min 5 n)`, the cursor
starts at the window length, and the current view never exceeds 5 records nor
the ranked-list length. -/
theorem C4_initial_window (ranked : List Movie) :
    initWindow 0 = none ∧
    (ranked ≠ [] → ∃ st, initWindow ranked.length = some st ∧
      st.displayed = List.range (min 5 ranked.length) ∧
      st.nextIndex = st.displayed.length ∧
      (currentView ranked st).length ≤ 5 ∧
      (currentView ranked st).length ≤ ranked.length) := by
  refine ⟨rfl, ?_⟩
  intro h
  have hn : ranked.length ≠ 0 := by simpa using h
  have hlen : (currentView ranked
      ⟨List.range (min 5 ranked.length), min 5 ranked.length⟩).length ≤
      min 5 ranked.length := by
    have h0 := List.length_filterMap_le (fun i => ranked.get? i)
      (List.range (min 5 ranked.length))
    simpa [currentView, List.length_range] using h0
  refine ⟨⟨List.range (min 5 ranked.length), min 5 ranked.length⟩, ?_, rfl, ?_, ?_, ?_⟩
  · unfold initWindow
    rw [if_neg hn]
  · simp [List.length_range]
  · exact hlen.trans (min_le_left _ _)
  · exact hlen.trans (min_le_right _ _)

/-- Concrete instantiation of C4_initial_window. -/
theorem C4_initial_window_witness :
    ∃ st, initWindow ([sampleA] : List Movie).length = some st ∧
      st.displayed = List.range (min 5 ([sampleA] : List Movie).length) ∧
      st.nextIndex = st.displayed.length ∧
      (currentView [sampleA] st).length ≤ 5 ∧
      (currentView [sampleA] st).length ≤ ([sampleA] : List Movie).length :=
  (C4_initial_window [sampleA]).2 (by simp)

/-- Claim C5: with a non-empty favorite actor, and at least one retained row
matching it, every matching record precedes every non-matching record in the
ranked list (stated as: whenever a later record matches, every earlier record
matches too). -/
theorem C5_actor_priority (df : List Movie) (prefs : Preferences)
    (hfav : prefs.fav_actor ≠ [])
    (_hex : ∃ p ∈ filterIdx df prefs, actorMatches prefs.fav_actor p.2 = true) :
    (filter_movies df prefs).Pairwise (fun a b =>
      actorMatches prefs.fav_actor b = true → actorMatches prefs.fav_actor a = true) := by
  unfold filter_movies
  rw [List.pairwise_map]
  exact (rankIdx_sorted df prefs).imp (fun h hb => sortLe_actor hfav h hb)

/-- Concrete instantiation of C5_actor_priority. -/
theorem C5_actor_priority_witness :
    (filter_movies [sampleA, sampleB, sampleC] prefsQ).Pairwise (fun a b =>
      actorMatches prefsQ.fav_actor b = true → actorMatches prefsQ.fav_actor a = true) :=
  C5_actor_priority [sampleA, sampleB, sampleC] prefsQ (by decide) (by decide)

/-- Claim C6: the ranking is stable on full ties: every ranked row points back
to its catalog record, and whenever two ranked rows agree on rating and vote
count (and, with a favorite actor set, on actor-match status), the earlier row
carries the smaller original catalog position. -/
theorem C6_sort_stability (df : List Movie) (prefs : Preferences) :
    (∀ p ∈ rankIdx df prefs, df[p.1]? = some p.2) ∧
    (rankIdx df prefs).Pairwise (fun a b =>
      a.2.rating = b.2.rating → a.2.votes = b.2.votes →
      (prefs.fav_actor ≠ [] →
        actorMatches prefs.fav_actor a.2 = actorMatches prefs.fav_actor b.2) →
      a.1 < b.1) := by
  refine ⟨fun p hp => mem_rankIdx hp, ?_⟩
  have h := (rankIdx_sorted df prefs).and (rankIdx_fst_nodup df prefs)
  exact h.imp (fun hab hr hv hm => sortLe_stable hab.1 hab.2 hr hv hm)

/-- Concrete instantiation of C6_sort_stability. -/
theorem C6_sort_stability_witness :
    ([sampleA, sampleB, sampleC] : List Movie)[(0 : ℕ)]? = some sampleA :=
  (C6_sort_stability [sampleA, sampleB, sampleC] samplePrefs).1 (0, sampleA) (by decide)

/-- Claim C7: with only a minimum rating set, the ranked list is exactly (a
permutation of) the catalog records with rating at least the bound: every
ranked record satisfies the bound, and every catalog record satisfying the
bound appears in the ranked list. -/
theorem C7_min_rating_filter (df : List Movie) (r : ℚ) :
    (filter_movies df ⟨none, some r, none, none, none, []⟩).Perm
      (df.filter (fun m => decide (r ≤ m.rating))) ∧
    (∀ m ∈ filter_movies df ⟨none, some r, none, none, none, []⟩, r ≤ m.rating) ∧
    (∀ m ∈ df, r ≤ m.rating →
      m ∈ filter_movies df ⟨none, some r, none, none, none, []⟩) := by
  have hperm : (filter_movies df ⟨none, some r, none, none, none, []⟩).Perm
      (df.filter (fun m => decide (r ≤ m.rating))) := by
    refine (filter_movies_perm df _).trans (List.Perm.of_eq ?_)
    refine List.filter_congr ?_
    intro m _
    simp [keepMovie]
  refine ⟨hperm, ?_, ?_⟩
  · intro m hm
    rcases List.mem_filter.mp (hperm.mem_iff.mp hm) with ⟨_, h2⟩
    exact of_decide_eq_true h2
  · intro m hm hr
    exact hperm.mem_iff.mpr (List.mem_filter.mpr ⟨hm, decide_eq_true hr⟩)

/-- Concrete instantiation of C7_min_rating_filter. -/
theorem C7_min_rating_filter_witness :
    sampleB ∈ filter_movies [sampleA, sampleB] ⟨none, some 9, none, none, none, []⟩ :=
  (C7_min_rating_filter [sampleA, sampleB] 9).2.2 sampleB (by decide) (by decide)

/-- Claim C8: award lookup returns one `(status, category)` entry for exactly
the award records whose film title contains the query case-insensitively, in
the underlying record order; the status is Winner precisely when the raw
winner flag normalizes (strip, lowercase) to the string `true`; and the lookup
of "dark knight" matches a record titled "The Dark Knight". -/
theorem C8_lookup_matches (t : List Char) (recs : List AwardRecord) :
    lookupEntries t (some recs) =
      (recs.filter (filmMatches t)).map (fun r => (winnerStatus r, r.category)) ∧
    (∀ r : AwardRecord,
      winnerStatus r = AwardStatus.winner ↔ lowerStr (stripStr r.winner) = "true".toList) ∧
    filmMatches "dark knight".toList ⟨"The Dark Knight".toList, [], []⟩ = true := by
  refine ⟨lookupEntries_some t recs, ?_, by decide⟩
  intro r
  unfold winnerStatus
  split
  · next h => exact ⟨fun _ => h, fun _ => rfl⟩
  · next h => exact ⟨fun hc => absurd hc (by decide), fun hc => absurd hc h⟩

/-- Refutation of claim C9 as stated: when nothing matches (or no dataset is
loaded), `check_oscar_status` does not return an empty sequence; it returns
`None`, a distinct absence marker. -/
theorem C9_counterexample :
    check_oscar_status "zzz".toList (some [sampleAward]) = none ∧
    check_oscar_status "zzz".toList none = none ∧
    check_oscar_status "zzz".toList (some [sampleAward]) ≠
      some ([] : List (AwardStatus × List Char)) :=
  ⟨by decide, rfl, by decide⟩

/-- Claim C9 as amended: with no matching record, and likewise with no award
dataset, lookup returns `None` — an absence marker the caller treats exactly
like no award entries (it carries no entries), and no failure is raised (the
embedded function is total). -/
theorem C9_none_of_no_match (t : List Char) (recs : List AwardRecord)
    (h : recs.filter (filmMatches t) = []) :
    check_oscar_status t (some recs) = none ∧
    check_oscar_status t none = none ∧
    lookupEntries t (some recs) = [] ∧
    lookupEntries t none = [] := by
  refine ⟨?_, rfl, ?_, rfl⟩
  · simp [check_oscar_status, h]
  · simp [lookupEntries, check_oscar_status, h]

/-- Concrete instantiation of C9_none_of_no_match. -/
theorem C9_none_of_no_match_witness :
    check_oscar_status "zzz".toList (some [sampleAward]) = none ∧
    check_oscar_status "zzz".toList none = none ∧
    lookupEntries "zzz".toList (some [sampleAward]) = [] ∧
    lookupEntries "zzz".toList none = [] :=
  C9_none_of_no_match "zzz".toList [sampleAward] (by decide)

/-- Claim C10: an empty query title matches every award record (empty-string
substring containment always holds), so lookup yields one entry per record of
the dataset rather than an empty result. -/
theorem C10_empty_query_matches_all (recs : List AwardRecord) :
    lookupEntries [] (some recs) = recs.map (fun r => (winnerStatus r, r.category)) ∧
    (lookupEntries [] (some recs)).length = recs.length := by
  have hf : recs.filter (filmMatches []) = recs := by
    refine List.filter_eq_self.mpr ?_
    intro r _
    exact isSubstring_nil _
  constructor
  · rw [lookupEntries_some, hf]
  · rw [lookupEntries_some, hf, List.length_map]
